import Mathlib

/-!
Verification of the Beam analyzer implementations
(`tensorflow_transform/beam/analyzer_impls.py`).

The development shallowly embeds the pure content of the pipeline:

* `flatten_value_to_list` — unpacking the single value array of a batch and
  flattening it in row-major order (`ravel`).
* The vocabulary pipeline of `_UniquesAnalyzerImpl.expand`: per-batch
  counting (`collections.Counter`) followed by a per-key sum
  (`CombinePerKey(sum)`), the mandatory element filter, the optional
  frequency-threshold filter, the optional top-k selection
  (`Top.Largest`), and `order_by_decreasing_counts` (sentinel insertion,
  `sort(reverse=True)` on `(count, element)` pairs, line formatting).
* `_CombinerAnalyzerImpl.expand`: `CombineGlobally` over a wrapped
  combiner spec, with `.without_defaults()` applied exactly when the spec
  is not a quantiles spec.
* `_AnalyzerImpl.expand`: dispatch on the class of the analyzer spec.

Batches of elements are modelled as lists, a distributed `PCollection` as
the list of its elements, and Python's tuple comparison on
`(count, element)` as the lexicographic order on `Nat × String`
(Python compares strings lexicographically, as does `String`'s linear
order).  Beam's `Top.Largest(k)` is modelled as taking the first `k`
elements of the descending sort, which is its contract for distinct
elements.  `Reshuffle`, sharded file IO and metrics reporting have no
effect on the computed lines and are not modelled.
-/

/-- A dense n-dimensional array as handed to `_flatten_value_to_list`:
either a scalar or a (possibly ragged) nesting of sub-arrays. -/
inductive NDArray (α : Type) where
  | scalar (value : α)
  | array (items : List (NDArray α))

mutual

/-- Row-major flattening of an `NDArray`, the model of `np.ravel().tolist()`. -/
def NDArray.ravel {α : Type} : NDArray α → List α
  | .scalar v => [v]
  | .array items => ravelAll items

/-- Row-major flattening of a list of `NDArray`s, in order. -/
def ravelAll {α : Type} : List (NDArray α) → List α
  | [] => []
  | x :: xs => x.ravel ++ ravelAll xs

end

/-- Model of `_flatten_value_to_list(batch_values)`.  The source unpacks
`batch_value, = batch_values`, which raises a `ValueError` unless the list
has exactly one element (modelled as `none`), then returns
`batch_value.ravel().tolist()`. -/
def flatten_value_to_list {α : Type} (batch_values : List (NDArray α)) :
    Option (List α) :=
  match batch_values with
  | [batch_value] => some batch_value.ravel
  | _ => none

/-- Model of `CountWithinList`: `collections.Counter(lst)` turned into a
list of `(element, count)` pairs, one per distinct element of the batch. -/
def batchCounts (batch : List String) : List (String × Nat) :=
  batch.dedup.map fun e => (e, batch.count e)

/-- All per-batch partial counts, as delivered to `CountGlobally`. -/
def pooledCounts (batches : List (List String)) : List (String × Nat) :=
  (batches.map batchCounts).flatten

/-- Model of `CombinePerKey(sum)` at key `e`: the sum of every partial
count recorded for `e`. -/
def countGlobally (batches : List (List String)) (e : String) : Nat :=
  (((pooledCounts batches).filter fun kv => kv.1 == e).map Prod.snd).sum

/-- The global count table produced by `CountGlobally`: one
`(element, count)` pair per distinct key occurring in the partial counts. -/
def countTable (batches : List (List String)) : List (String × Nat) :=
  ((pooledCounts batches).map Prod.fst).dedup.map
    fun e => (e, countGlobally batches e)

/-- Model of the `FilterProblematicStrings` predicate
`lambda kv: kv[0] and '\n' not in kv[0] and '\r' not in kv[0]`:
the element must be non-empty (Python truthiness of a string) and must not
contain a line-feed or carriage-return character. -/
def elementOk (e : String) : Bool :=
  !(e == "") && !(e.data.contains '\n') && !(e.data.contains '\r')

/-- The count table after `FilterProblematicStrings`. -/
def filteredCountTable (batches : List (List String)) : List (String × Nat) :=
  (countTable batches).filter fun kv => elementOk kv.1

/-- The table after `SwapElementsAndCounts` (`beam.KvSwap()`):
`(count, element)` pairs. -/
def swappedCounts (batches : List (List String)) : List (Nat × String) :=
  (filteredCountTable batches).map fun kv => (kv.2, kv.1)

/-- Model of `FilterByFrequencyThreshold`: when a threshold is set, keep
only the pairs whose count is at least the threshold. -/
def thresholdFiltered (frequency_threshold : Option Nat)
    (counts : List (Nat × String)) : List (Nat × String) :=
  match frequency_threshold with
  | none => counts
  | some t => counts.filter fun kv => decide (t ≤ kv.1)

/-- Python's `>=` on `(count, element)` tuples: lexicographic, count first,
then the element string.  This is the comparison under which both
`Top.Largest` and `sort(reverse=True)` operate. -/
def pairGeP (p q : Nat × String) : Prop :=
  q.1 < p.1 ∨ (q.1 = p.1 ∧ q.2 ≤ p.2)

/-- Strict version of `pairGeP`: strictly greater count, or equal count and
strictly greater element. -/
def pairGtP (p q : Nat × String) : Prop :=
  q.1 < p.1 ∨ (q.1 = p.1 ∧ q.2 < p.2)

instance : DecidableRel pairGeP :=
  fun p q => inferInstanceAs (Decidable (q.1 < p.1 ∨ (q.1 = p.1 ∧ q.2 ≤ p.2)))

instance : DecidableRel pairGtP :=
  fun p q => inferInstanceAs (Decidable (q.1 < p.1 ∨ (q.1 = p.1 ∧ q.2 < p.2)))

/-- Sorting a list of `(count, element)` pairs in decreasing tuple order,
the model of `counts.sort(reverse=True)`. -/
def sortDesc (counts : List (Nat × String)) : List (Nat × String) :=
  List.insertionSort pairGeP counts

/-- Model of `Top.Largest(top_k)` followed by `FlattenList`: the `top_k`
largest pairs under the tuple comparison. -/
def topKSelected (top_k : Option Nat) (counts : List (Nat × String)) :
    List (Nat × String) :=
  match top_k with
  | none => counts
  | some k => (sortDesc counts).take k

/-- The `(count, element)` pairs that survive the element filter, the
frequency-threshold filter and the top-k selection, i.e. the contents of
the `counts` PCollection handed to `order_by_decreasing_counts`. -/
def survivingCounts (top_k frequency_threshold : Option Nat)
    (batches : List (List String)) : List (Nat × String) :=
  topKSelected top_k
    (thresholdFiltered frequency_threshold (swappedCounts batches))

/-- The reserved placeholder element inserted when the table is empty. -/
def sentinelToken : String := "49d0cd50-04bb-48c0-bc6f-5b575dce351a"

/-- Model of `order_by_decreasing_counts`: insert the sentinel entry when
the table is empty, sort in decreasing order, then format each line as
`"<count> <element>"` when `store_frequency` is set and `"<element>"`
otherwise. -/
def order_by_decreasing_counts (store_frequency : Bool)
    (counts : List (Nat × String)) : List String :=
  let counts := if counts.isEmpty then [(1, sentinelToken)] else counts
  let sorted := sortDesc counts
  if store_frequency then sorted.map fun p => toString p.1 ++ " " ++ p.2
  else sorted.map Prod.snd

/-- The sorted `(count, element)` pairs underlying the emitted lines. -/
def vocabEntries (top_k frequency_threshold : Option Nat)
    (batches : List (List String)) : List (Nat × String) :=
  let counts := survivingCounts top_k frequency_threshold batches
  sortDesc (if counts.isEmpty then [(1, sentinelToken)] else counts)

/-- One emitted line: `'{} {}'.format(count, element)` when
`store_frequency` is set, the bare element otherwise. -/
def formatLine (store_frequency : Bool) (p : Nat × String) : String :=
  if store_frequency then toString p.1 ++ " " ++ p.2 else p.2

/-- The lines of the vocabulary artifact written by
`_UniquesAnalyzerImpl.expand` for the given spec fields and input batches. -/
def vocabLines (store_frequency : Bool) (top_k frequency_threshold : Option Nat)
    (batches : List (List String)) : List String :=
  order_by_decreasing_counts store_frequency
    (survivingCounts top_k frequency_threshold batches)

/-- Model of an `analyzers.CombinerSpec` as wrapped by `_CombineFnWrapper`:
the four accumulator operations, plus whether the concrete class is
`analyzers._QuantilesCombinerSpec` (the only class for which
`_CombinerAnalyzerImpl.expand` does not call `.without_defaults()`). -/
structure CombinerSpecModel (A B C : Type) where
  isQuantilesSpec : Bool
  create_accumulator : A
  add_input : A → B → A
  merge_accumulators : List A → A
  extract_output : A → C

/-- Applying the wrapped combiner to a list of inputs: fold `add_input`
over the batches starting from `create_accumulator` and extract.  Beam may
split this fold into an arbitrary merge tree; the linear fold is the
canonical shape. -/
def combineFnApply {A B C : Type} (spec : CombinerSpecModel A B C)
    (batches : List B) : C :=
  spec.extract_output (batches.foldl spec.add_input spec.create_accumulator)

/-- Model of `_CombinerAnalyzerImpl.expand`: `beam.CombineGlobally` over
the wrapped spec.  For every spec that is not a quantiles spec the source
sets `.without_defaults()`, under which an empty input PCollection yields
an empty output PCollection (no element and no error); otherwise the
default element `extract_output(create_accumulator())` is produced on
empty input, which the general formula already covers.  The source has no
failure path here, so the result type is a plain list of outputs. -/
def combinerAnalyzerExpand {A B C : Type} (spec : CombinerSpecModel A B C)
    (batches : List B) : List C :=
  if batches.isEmpty && !spec.isQuantilesSpec then []
  else [combineFnApply spec batches]

/-- A concrete combiner spec (a running sum over `Nat`), not a quantiles
spec, used to exercise the empty-input behaviour. -/
def natSumCombinerSpec : CombinerSpecModel Nat Nat Nat where
  isQuantilesSpec := false
  create_accumulator := 0
  add_input := (· + ·)
  merge_accumulators := List.sum
  extract_output := id

/-- The fields of `analyzers._UniquesSpec` consumed by
`_UniquesAnalyzerImpl`. -/
structure UniquesSpec where
  top_k : Option Nat
  frequency_threshold : Option Nat
  store_frequency : Bool
  vocab_filename : String

/-- The analyzer spec as seen by `_AnalyzerImpl.expand`, which inspects the
class of the spec object: an `analyzers._UniquesSpec`, an
`analyzers.CombinerSpec`, or any other class (carrying its name, which the
source interpolates into the raised `NotImplementedError`). -/
inductive AnalyzerSpecModel (A C : Type) where
  | uniquesSpec (spec : UniquesSpec)
  | combinerSpec (spec : CombinerSpecModel A (List String) C)
  | unknownSpec (className : String)

/-- The single-element output PCollection of an analyzer: vocabulary lines
from the Vocabulary Builder, or extracted values from the Combine Engine. -/
inductive AnalyzerOutput (C : Type) where
  | vocabulary (lines : List String)
  | combined (values : List C)

/-- Model of `_AnalyzerImpl.expand`: dispatch on the class of the spec,
delegating to `_UniquesAnalyzerImpl` or `_CombinerAnalyzerImpl`, and raise
`NotImplementedError` for any other class. -/
def analyzerImplExpand {A C : Type} (spec : AnalyzerSpecModel A C)
    (batches : List (List String)) : Except String (AnalyzerOutput C) :=
  match spec with
  | .uniquesSpec u =>
      .ok (.vocabulary
        (vocabLines u.store_frequency u.top_k u.frequency_threshold batches))
  | .combinerSpec c => .ok (.combined (combinerAnalyzerExpand c batches))
  | .unknownSpec className => .error ("NotImplementedError: " ++ className)

theorem sum_map_zero {α : Type} (d : List α) : (d.map fun _ => (0 : Nat)).sum = 0 := by
  induction d with
  | nil => rfl
  | cons x d ih => simp [ih]

theorem sum_map_add {α : Type} (f g : α → Nat) : ∀ d : List α,
    (d.map fun x => f x + g x).sum = (d.map f).sum + (d.map g).sum := by
  intro d
  induction d with
  | nil => rfl
  | cons x d ih =>
    simp only [List.map_cons, List.sum_cons, ih]
    omega

theorem sum_indicator_not_mem (a : String) : ∀ d : List String, a ∉ d →
    (d.map fun x => if a == x then 1 else 0).sum = 0 := by
  intro d
  induction d with
  | nil => intro _; rfl
  | cons x d ih =>
    intro h
    have hxa : (a == x) = false :=
      beq_eq_false_iff_ne.mpr fun hx => h (hx ▸ List.mem_cons_self x d)
    simp only [List.map_cons, List.sum_cons, hxa, Bool.false_eq_true, if_false]
    rw [ih fun hd => h (List.mem_cons_of_mem x hd)]

theorem sum_indicator_nodup (a : String) : ∀ d : List String, d.Nodup → a ∈ d →
    (d.map fun x => if a == x then 1 else 0).sum = 1 := by
  intro d
  induction d with
  | nil => intro _ ha; exact absurd ha (List.not_mem_nil a)
  | cons x d ih =>
    intro hd ha
    rcases List.nodup_cons.mp hd with ⟨hx, hd'⟩
    by_cases hxa : a = x
    · have hb : (a == x) = true := beq_iff_eq.mpr hxa
      have hand : a ∉ d := fun had => hx (hxa ▸ had)
      simp only [List.map_cons, List.sum_cons, hb, if_true]
      rw [sum_indicator_not_mem a d hand]
    · have hne : (a == x) = false := beq_eq_false_iff_ne.mpr hxa
      have ha' : a ∈ d := by
        rcases List.mem_cons.mp ha with h | h
        · exact absurd h hxa
        · exact h
      simp only [List.map_cons, List.sum_cons, hne, Bool.false_eq_true, if_false]
      rw [ih hd' ha']

theorem sum_counts_of_nodup (d : List String) (hd : d.Nodup) :
    ∀ l : List String, (∀ x ∈ l, x ∈ d) →
      (d.map fun x => l.count x).sum = l.length := by
  intro l
  induction l with
  | nil =>
    intro _
    simp only [List.count_nil, List.length_nil]
    exact sum_map_zero d
  | cons a l ih =>
    intro hsub
    have ha : a ∈ d := hsub a (List.mem_cons_self a l)
    have hsub' : ∀ x ∈ l, x ∈ d := fun x hx => hsub x (List.mem_cons_of_mem a hx)
    have hcc : ∀ x ∈ d, (a :: l).count x = l.count x + if a == x then 1 else 0 :=
      fun x _ => List.count_cons x a l
    rw [List.map_congr_left hcc, sum_map_add (fun x => l.count x)
      (fun x => if a == x then 1 else 0) d, ih hsub',
      sum_indicator_nodup a d hd ha, List.length_cons]

theorem pooledCounts_cons (b : List String) (bs : List (List String)) :
    pooledCounts (b :: bs) = batchCounts b ++ pooledCounts bs := by
  simp [pooledCounts]

theorem filter_key_map_of_nodup {β : Type} (f : String → β) (e : String) :
    ∀ d : List String, d.Nodup →
      (((d.map fun x => (x, f x)).filter fun kv => kv.1 == e).map Prod.snd)
        = if e ∈ d then [f e] else [] := by
  intro d
  induction d with
  | nil => intro _; simp
  | cons x d ih =>
    intro hd
    rcases List.nodup_cons.mp hd with ⟨hx, hd'⟩
    by_cases hxe : x = e
    · have hbeq : (x == e) = true := beq_iff_eq.mpr hxe
      have hed : e ∉ d := fun h => hx (by rwa [hxe])
      have hrest : (((d.map fun y => (y, f y)).filter fun kv => kv.1 == e).map Prod.snd) = [] := by
        rw [ih hd', if_neg hed]
      simp only [List.map_cons, List.filter_cons, hbeq, if_true, List.map_cons, hrest]
      rw [if_pos (List.mem_cons.mpr (Or.inl hxe.symm))]
      simp [hxe]
    · have hne : (x == e) = false := beq_eq_false_iff_ne.mpr hxe
      simp only [List.map_cons, List.filter_cons, hne, Bool.false_eq_true, if_false]
      rw [ih hd']
      have hiff : (e ∈ x :: d) ↔ (e ∈ d) := by
        constructor
        · intro h
          rcases List.mem_cons.mp h with h | h
          · exact absurd h.symm hxe
          · exact h
        · exact List.mem_cons_of_mem x
      by_cases hed : e ∈ d
      · rw [if_pos hed, if_pos (hiff.mpr hed)]
      · rw [if_neg hed, if_neg fun h => hed (hiff.mp h)]

theorem batchFilter_sum (b : List String) (e : String) :
    ((((batchCounts b).filter fun kv => kv.1 == e).map Prod.snd)).sum = b.count e := by
  unfold batchCounts
  rw [filter_key_map_of_nodup (fun x => b.count x) e b.dedup (List.nodup_dedup b)]
  by_cases h : e ∈ b.dedup
  · rw [if_pos h]; simp
  · rw [if_neg h]
    have hne : e ∉ b := fun hb => h (List.mem_dedup.mpr hb)
    simp [List.count_eq_zero_of_not_mem hne]

theorem countGlobally_eq_count (batches : List (List String)) (e : String) :
    countGlobally batches e = batches.flatten.count e := by
  induction batches with
  | nil => rfl
  | cons b bs ih =>
    simp only [countGlobally, pooledCounts_cons, List.filter_append, List.map_append,
      List.sum_append, List.flatten_cons, List.count_append]
    simp only [countGlobally] at ih
    rw [batchFilter_sum, ih]

theorem mem_countTable_keys_iff (batches : List (List String)) (e : String) :
    e ∈ ((pooledCounts batches).map Prod.fst).dedup ↔ e ∈ batches.flatten := by
  rw [List.mem_dedup]
  unfold pooledCounts
  constructor
  · intro h
    rcases List.mem_map.mp h with ⟨kv, hkv, rfl⟩
    rcases List.mem_flatten.mp hkv with ⟨l, hl, hkvl⟩
    rcases List.mem_map.mp hl with ⟨b, hb, rfl⟩
    simp only [batchCounts] at hkvl
    rcases List.mem_map.mp hkvl with ⟨x, hxb, rfl⟩
    exact List.mem_flatten.mpr ⟨b, hb, List.mem_dedup.mp hxb⟩
  · intro h
    rcases List.mem_flatten.mp h with ⟨b, hb, he⟩
    refine List.mem_map.mpr ⟨(e, b.count e), ?_, rfl⟩
    refine List.mem_flatten.mpr ⟨batchCounts b, List.mem_map.mpr ⟨b, hb, rfl⟩, ?_⟩
    simp only [batchCounts]
    exact List.mem_map.mpr ⟨e, List.mem_dedup.mpr he, rfl⟩

theorem countTable_mem_spec (batches : List (List String)) :
    ∀ kv ∈ countTable batches,
      kv.1 ∈ batches.flatten ∧ kv.2 = batches.flatten.count kv.1 := by
  intro kv hkv
  rcases List.mem_map.mp hkv with ⟨x, hx, rfl⟩
  exact ⟨(mem_countTable_keys_iff batches x).mp hx, countGlobally_eq_count batches x⟩

theorem countTable_complete (batches : List (List String)) (e : String)
    (he : e ∈ batches.flatten) :
    (e, batches.flatten.count e) ∈ countTable batches := by
  refine List.mem_map.mpr ⟨e, (mem_countTable_keys_iff batches e).mpr he, ?_⟩
  rw [countGlobally_eq_count]

theorem countTable_sum (batches : List (List String)) :
    ((countTable batches).map Prod.snd).sum = batches.flatten.length := by
  unfold countTable
  rw [List.map_map]
  have h1 : ∀ x ∈ ((pooledCounts batches).map Prod.fst).dedup,
      (Prod.snd ∘ fun e => (e, countGlobally batches e)) x
        = batches.flatten.count x :=
    fun x _ => countGlobally_eq_count batches x
  rw [List.map_congr_left h1]
  exact sum_counts_of_nodup _ (List.nodup_dedup _) batches.flatten
    fun x hx => (mem_countTable_keys_iff batches x).mpr hx

theorem countGlobally_perm_flatten (bs bs' : List (List String))
    (h : bs.flatten.Perm bs'.flatten) (e : String) :
    countGlobally bs' e = countGlobally bs e := by
  rw [countGlobally_eq_count, countGlobally_eq_count]
  exact (h.count_eq e).symm

instance : IsTotal (Nat × String) pairGeP where
  total p q := by
    unfold pairGeP
    rcases Nat.lt_trichotomy p.1 q.1 with h | h | h
    · exact Or.inr (Or.inl h)
    · rcases le_total q.2 p.2 with hs | hs
      · exact Or.inl (Or.inr ⟨h.symm, hs⟩)
      · exact Or.inr (Or.inr ⟨h, hs⟩)
    · exact Or.inl (Or.inl h)

instance : IsTrans (Nat × String) pairGeP where
  trans p q r hpq hqr := by
    unfold pairGeP at *
    rcases hpq with h1 | ⟨h1, h1s⟩
    · rcases hqr with h2 | ⟨h2, h2s⟩
      · exact Or.inl (h2.trans h1)
      · exact Or.inl (h2 ▸ h1)
    · rcases hqr with h2 | ⟨h2, h2s⟩
      · exact Or.inl (h1 ▸ h2)
      · exact Or.inr ⟨h2.trans h1, h2s.trans h1s⟩

instance : IsAntisymm (Nat × String) pairGeP where
  antisymm p q hpq hqp := by
    unfold pairGeP at *
    rcases hpq with h1 | ⟨h1, h1s⟩
    · rcases hqp with h2 | ⟨h2, h2s⟩
      · exact absurd h1 (Nat.lt_asymm h2)
      · exact absurd h1 (h2 ▸ Nat.lt_irrefl q.1)
    · rcases hqp with h2 | ⟨h2, h2s⟩
      · exact absurd h2 (h1 ▸ Nat.lt_irrefl q.1)
      · rcases p with ⟨pc, pe⟩
        rcases q with ⟨qc, qe⟩
        simp only at h1 h1s h2s
        rw [h1, le_antisymm h1s h2s]

theorem sortDesc_perm (l : List (Nat × String)) : (sortDesc l).Perm l :=
  List.perm_insertionSort pairGeP l

theorem sortDesc_sorted (l : List (Nat × String)) : (sortDesc l).Pairwise pairGeP :=
  List.sorted_insertionSort pairGeP l

theorem sortDesc_eq_of_sorted {l : List (Nat × String)} (h : l.Pairwise pairGeP) :
    sortDesc l = l :=
  List.Sorted.insertionSort_eq h

theorem sortDesc_sortDesc (l : List (Nat × String)) :
    sortDesc (sortDesc l) = sortDesc l :=
  sortDesc_eq_of_sorted (sortDesc_sorted l)

theorem sortDesc_nodup {l : List (Nat × String)} (h : l.Nodup) :
    (sortDesc l).Nodup :=
  (sortDesc_perm l).nodup_iff.mpr h

theorem sortDesc_length (l : List (Nat × String)) :
    (sortDesc l).length = l.length :=
  (sortDesc_perm l).length_eq

theorem pairwise_gt_of_ge_nodup {l : List (Nat × String)}
    (hge : l.Pairwise pairGeP) (hnd : l.Nodup) : l.Pairwise pairGtP := by
  refine (hge.and hnd).imp ?_
  rintro p q ⟨hpq, hne⟩
  rcases hpq with h | ⟨h, hs⟩
  · exact Or.inl h
  · refine Or.inr ⟨h, lt_of_le_of_ne hs ?_⟩
    intro hsnd
    apply hne
    rcases p with ⟨pc, pe⟩
    rcases q with ⟨qc, qe⟩
    simp only at h hsnd
    rw [h.symm, hsnd.symm]

theorem countTable_nodup (batches : List (List String)) :
    (countTable batches).Nodup := by
  unfold countTable
  refine List.Nodup.map ?_ (List.nodup_dedup _)
  intro a b hab
  exact congrArg Prod.fst hab

theorem swappedCounts_nodup (batches : List (List String)) :
    (swappedCounts batches).Nodup := by
  unfold swappedCounts filteredCountTable
  refine List.Nodup.map ?_ ((countTable_nodup batches).filter _)
  intro a b hab
  have h2 : a.2 = b.2 := congrArg Prod.fst hab
  have h1 : a.1 = b.1 := congrArg Prod.snd hab
  rcases a with ⟨a1, a2⟩
  rcases b with ⟨b1, b2⟩
  simp only at h1 h2
  rw [h1, h2]

theorem thresholdFiltered_nodup (t : Option Nat) {l : List (Nat × String)}
    (h : l.Nodup) : (thresholdFiltered t l).Nodup := by
  cases t with
  | none => exact h
  | some t => exact h.filter _

theorem thresholdFiltered_subset (t : Option Nat) (l : List (Nat × String)) :
    ∀ p ∈ thresholdFiltered t l, p ∈ l := by
  cases t with
  | none => exact fun p hp => hp
  | some t => exact fun p hp => (List.mem_filter.mp hp).1

theorem mem_thresholdFiltered_some {t : Nat} {l : List (Nat × String)}
    {p : Nat × String} : p ∈ thresholdFiltered (some t) l ↔ p ∈ l ∧ t ≤ p.1 := by
  unfold thresholdFiltered
  rw [List.mem_filter]
  constructor
  · exact fun ⟨h1, h2⟩ => ⟨h1, of_decide_eq_true h2⟩
  · exact fun ⟨h1, h2⟩ => ⟨h1, decide_eq_true h2⟩

theorem topKSelected_nodup (k : Option Nat) {l : List (Nat × String)}
    (h : l.Nodup) : (topKSelected k l).Nodup := by
  cases k with
  | none => exact h
  | some k => exact ((sortDesc l).take_sublist k).nodup (sortDesc_nodup h)

theorem topKSelected_subset (k : Option Nat) (l : List (Nat × String)) :
    ∀ p ∈ topKSelected k l, p ∈ l := by
  cases k with
  | none => exact fun p hp => hp
  | some k =>
    intro p hp
    exact (sortDesc_perm l).mem_iff.mp (((sortDesc l).take_sublist k).mem hp)

theorem survivingCounts_nodup (k t : Option Nat) (batches : List (List String)) :
    (survivingCounts k t batches).Nodup :=
  topKSelected_nodup k (thresholdFiltered_nodup t (swappedCounts_nodup batches))

theorem survivingCounts_subset_threshold (k t : Option Nat)
    (batches : List (List String)) :
    ∀ p ∈ survivingCounts k t batches,
      p ∈ thresholdFiltered t (swappedCounts batches) :=
  topKSelected_subset k _

theorem mem_swappedCounts_elementOk {batches : List (List String)}
    {p : Nat × String} (h : p ∈ swappedCounts batches) : elementOk p.2 = true := by
  unfold swappedCounts filteredCountTable at h
  rcases List.mem_map.mp h with ⟨kv, hkv, rfl⟩
  exact (List.mem_filter.mp hkv).2

theorem vocabEntries_of_surviving_nil {k t : Option Nat}
    {batches : List (List String)}
    (h : survivingCounts k t batches = []) :
    vocabEntries k t batches = [(1, sentinelToken)] := by
  unfold vocabEntries
  rw [h]
  rfl

theorem vocabEntries_perm_surviving {k t : Option Nat}
    {batches : List (List String)}
    (h : survivingCounts k t batches ≠ []) :
    (vocabEntries k t batches).Perm (survivingCounts k t batches) := by
  show (sortDesc (if (survivingCounts k t batches).isEmpty then [(1, sentinelToken)]
    else survivingCounts k t batches)).Perm (survivingCounts k t batches)
  rw [if_neg (by simpa using h)]
  exact sortDesc_perm _

theorem vocabEntries_nodup (k t : Option Nat) (batches : List (List String)) :
    (vocabEntries k t batches).Nodup := by
  show (sortDesc (if (survivingCounts k t batches).isEmpty then [(1, sentinelToken)]
    else survivingCounts k t batches)).Nodup
  by_cases h : (survivingCounts k t batches).isEmpty
  · rw [if_pos h]
    exact sortDesc_nodup (List.nodup_singleton _)
  · rw [if_neg h]
    exact sortDesc_nodup (survivingCounts_nodup k t batches)

theorem vocabEntries_sorted (k t : Option Nat) (batches : List (List String)) :
    (vocabEntries k t batches).Pairwise pairGeP := by
  unfold vocabEntries
  exact sortDesc_sorted _

theorem vocabEntries_strict_sorted (k t : Option Nat)
    (batches : List (List String)) :
    (vocabEntries k t batches).Pairwise pairGtP :=
  pairwise_gt_of_ge_nodup (vocabEntries_sorted k t batches)
    (vocabEntries_nodup k t batches)

theorem vocabEntries_ne_nil (k t : Option Nat) (batches : List (List String)) :
    vocabEntries k t batches ≠ [] := by
  by_cases h : survivingCounts k t batches = []
  · rw [vocabEntries_of_surviving_nil h]
    exact List.cons_ne_nil _ _
  · intro hnil
    exact h (List.Perm.eq_nil ((vocabEntries_perm_surviving h).symm.trans (hnil ▸ List.Perm.refl _)))

theorem vocabLines_eq_map_formatLine (store_frequency : Bool)
    (k t : Option Nat) (batches : List (List String)) :
    vocabLines store_frequency k t batches
      = (vocabEntries k t batches).map (formatLine store_frequency) := by
  cases store_frequency with
  | false => simp [vocabLines, order_by_decreasing_counts, vocabEntries, formatLine]
  | true => simp [vocabLines, order_by_decreasing_counts, vocabEntries, formatLine]

theorem vocabEntries_mem_cases {k t : Option Nat} {batches : List (List String)}
    {p : Nat × String} (h : p ∈ vocabEntries k t batches) :
    p = (1, sentinelToken) ∨ p ∈ survivingCounts k t batches := by
  by_cases hs : survivingCounts k t batches = []
  · rw [vocabEntries_of_surviving_nil hs] at h
    exact Or.inl (List.mem_singleton.mp h)
  · exact Or.inr ((vocabEntries_perm_surviving hs).mem_iff.mp h)

theorem elementOk_iff (e : String) :
    elementOk e = true ↔ ¬(e = "" ∨ '\n' ∈ e.data ∨ '\r' ∈ e.data) := by
  unfold elementOk
  simp [not_or, and_assoc]

theorem elementOk_false_iff (e : String) :
    elementOk e = false ↔ (e = "" ∨ '\n' ∈ e.data ∨ '\r' ∈ e.data) := by
  rw [← Bool.not_eq_true, elementOk_iff, not_not]

theorem vocabEntries_topk_eq {k : Nat} {t : Option Nat}
    {batches : List (List String)} (hk : 1 ≤ k)
    (hne : thresholdFiltered t (swappedCounts batches) ≠ []) :
    vocabEntries (some k) t batches
      = (sortDesc (thresholdFiltered t (swappedCounts batches))).take k := by
  have hsurv : survivingCounts (some k) t batches
      = (sortDesc (thresholdFiltered t (swappedCounts batches))).take k := rfl
  have hlen : 0 < (sortDesc (thresholdFiltered t (swappedCounts batches))).length := by
    rw [sortDesc_length]
    exact List.length_pos.mpr hne
  have htake : survivingCounts (some k) t batches ≠ [] := by
    rw [hsurv]
    apply List.ne_nil_of_length_pos
    rw [List.length_take]
    omega
  have hsorted : (survivingCounts (some k) t batches).Pairwise pairGeP := by
    rw [hsurv]
    exact List.Pairwise.sublist (List.take_sublist k _) (sortDesc_sorted _)
  show sortDesc (if (survivingCounts (some k) t batches).isEmpty
      then [(1, sentinelToken)] else survivingCounts (some k) t batches)
    = (sortDesc (thresholdFiltered t (swappedCounts batches))).take k
  rw [if_neg (by simpa using htake), sortDesc_eq_of_sorted hsorted, hsurv]

theorem ravelAll_map_scalar {α : Type} (r : List α) :
    ravelAll (r.map NDArray.scalar) = r := by
  induction r with
  | nil => rfl
  | cons a r ih => simp [ravelAll, NDArray.ravel, ih]

theorem ravel_matrix {α : Type} (rows : List (List α)) :
    (NDArray.array (rows.map fun r => NDArray.array (r.map NDArray.scalar))).ravel
      = rows.flatten := by
  induction rows with
  | nil => simp [NDArray.ravel, ravelAll]
  | cons r rows ih =>
    simp only [NDArray.ravel] at ih ⊢
    simp only [List.map_cons, ravelAll, List.flatten_cons]
    rw [ih]
    simp only [NDArray.ravel]
    rw [ravelAll_map_scalar]

/-- C1: the global count table (before filtering) maps each distinct element
to its exact number of occurrences across all flattened batches, the sum of
all counts equals the number of elements observed, and the table (as a
count-per-key map) is identical for every permutation of the batches and of
elements within batches. -/
theorem claim_C1_global_count_table (batches : List (List String)) :
    (∀ kv ∈ countTable batches,
        kv.1 ∈ batches.flatten ∧ kv.2 = batches.flatten.count kv.1)
    ∧ (∀ e ∈ batches.flatten,
        (e, batches.flatten.count e) ∈ countTable batches)
    ∧ ((countTable batches).map Prod.snd).sum = batches.flatten.length
    ∧ (∀ batches' : List (List String),
        batches.Perm batches' ∨ List.Forall₂ List.Perm batches batches' →
          ∀ e, countGlobally batches' e = countGlobally batches e) := by
  refine ⟨countTable_mem_spec batches, fun e he => countTable_complete batches e he,
    countTable_sum batches, ?_⟩
  intro batches' h e
  apply countGlobally_perm_flatten
  rcases h with h | h
  · exact h.flatten
  · exact List.Perm.flatten_congr h

theorem claim_C1_witness :
    ("a", [["a", "b"], ["a"]].flatten.count "a") ∈ countTable [["a", "b"], ["a"]]
    ∧ countGlobally [["a"], ["a", "b"]] "a" = countGlobally [["a", "b"], ["a"]] "a" := by
  constructor
  · exact (claim_C1_global_count_table [["a", "b"], ["a"]]).2.1 "a" (by decide)
  · exact (claim_C1_global_count_table [["a", "b"], ["a"]]).2.2.2 [["a"], ["a", "b"]]
      (Or.inl (by decide)) "a"

/-- C2 counterexample: on an empty input with `store_frequency` unset, the
emitted lines are the sentinel line, not the (empty) list of surviving
entries sorted and formatted, so the claim as stated fails. -/
theorem claim_C2_counterexample :
    vocabLines false none none []
      ≠ (sortDesc (survivingCounts none none [])).map Prod.snd := by decide

/-- C2 (amended): the emitted lines are the surviving entries — or the
single sentinel entry when none survive — sorted strictly descending by
count and then by element value descending, each formatted as
`"<count> <element>"` when `store_frequency` is set and `"<element>"`
otherwise, and re-sorting the emitted entries by the same key is a no-op. -/
theorem claim_C2_sorted_lines (store_frequency : Bool) (k t : Option Nat)
    (batches : List (List String)) :
    vocabLines store_frequency k t batches
      = (vocabEntries k t batches).map (formatLine store_frequency)
    ∧ (vocabEntries k t batches).Pairwise pairGtP
    ∧ (survivingCounts k t batches ≠ [] →
        (vocabEntries k t batches).Perm (survivingCounts k t batches))
    ∧ sortDesc (vocabEntries k t batches) = vocabEntries k t batches :=
  ⟨vocabLines_eq_map_formatLine store_frequency k t batches,
   vocabEntries_strict_sorted k t batches,
   fun h => vocabEntries_perm_surviving h,
   sortDesc_eq_of_sorted (vocabEntries_sorted k t batches)⟩

theorem claim_C2_witness :
    survivingCounts none none [["a", "b"], ["a"]] ≠ []
    ∧ (vocabEntries none none [["a", "b"], ["a"]]).Perm
        (survivingCounts none none [["a", "b"], ["a"]]) :=
  ⟨by decide,
   (claim_C2_sorted_lines true none none [["a", "b"], ["a"]]).2.2.1 (by decide)⟩

/-- C3 counterexample: with `top_k = 0` (allowed by the source's
`assert top_k >= 0`) the sentinel entry is still emitted, so more than `0`
entries are emitted and the claim as stated fails. -/
theorem claim_C3_counterexample :
    ¬ (vocabEntries (some 0) none [["a"]]).length ≤ 0 := by decide

/-- C3 (amended): if `top_k = k` is set with `k ≥ 1` and at least one entry
survives the preceding filters, at most `k` entries are emitted and they
are exactly the `k` greatest surviving entries under the ordering (the
first `k` of the descending sort); when no entry survives the filters or
`k = 0`, the single sentinel entry is emitted instead. -/
theorem claim_C3_top_k (k : Nat) (t : Option Nat) (batches : List (List String)) :
    (1 ≤ k → thresholdFiltered t (swappedCounts batches) ≠ [] →
      vocabEntries (some k) t batches
          = (sortDesc (thresholdFiltered t (swappedCounts batches))).take k
        ∧ (vocabEntries (some k) t batches).length ≤ k)
    ∧ (thresholdFiltered t (swappedCounts batches) = [] →
        vocabEntries (some k) t batches = [(1, sentinelToken)])
    ∧ (k = 0 → vocabEntries (some k) t batches = [(1, sentinelToken)]) := by
  refine ⟨?_, ?_, ?_⟩
  · intro hk hne
    have heq := vocabEntries_topk_eq hk hne
    refine ⟨heq, ?_⟩
    rw [heq]
    exact List.length_take_le k _
  · intro h
    have hsurv : survivingCounts (some k) t batches = [] := by
      show (sortDesc (thresholdFiltered t (swappedCounts batches))).take k = []
      rw [h]
      simp [sortDesc]
    exact vocabEntries_of_surviving_nil hsurv
  · intro hk
    subst hk
    have hsurv : survivingCounts (some 0) t batches = [] := rfl
    exact vocabEntries_of_surviving_nil hsurv

theorem claim_C3_witness :
    1 ≤ 1
    ∧ thresholdFiltered none (swappedCounts [["a", "b"], ["a"]]) ≠ []
    ∧ vocabEntries (some 1) none [["a", "b"], ["a"]]
        = (sortDesc (thresholdFiltered none
            (swappedCounts [["a", "b"], ["a"]]))).take 1 :=
  ⟨by decide, by decide,
   ((claim_C3_top_k 1 none [["a", "b"], ["a"]]).1 (by decide) (by decide)).1⟩

/-- C4 counterexample: with `frequency_threshold = 2` and a single element
of count `1`, the table empties and the sentinel entry of count `1 < 2` is
emitted, so the claim as stated ("every emitted entry has count ≥ t")
fails. -/
theorem claim_C4_counterexample :
    ¬ ∀ p ∈ vocabEntries none (some 2) [["a"]], 2 ≤ p.1 := by decide

/-- C4 (amended): if `frequency_threshold = t` is set, every emitted entry
has count ≥ t provided the table is nonempty after all filters and top-k
(when it is empty, only the sentinel entry of count `1` is emitted); and no
entry with count ≥ t that survived the element filter is omitted except by
`top_k`. -/
theorem claim_C4_threshold (t : Nat) (k : Option Nat)
    (batches : List (List String)) :
    (survivingCounts k (some t) batches ≠ [] →
      ∀ p ∈ vocabEntries k (some t) batches, t ≤ p.1)
    ∧ (∀ p ∈ swappedCounts batches, t ≤ p.1 →
        p ∈ vocabEntries none (some t) batches) := by
  constructor
  · intro hne p hp
    have hps : p ∈ survivingCounts k (some t) batches :=
      (vocabEntries_perm_surviving hne).mem_iff.mp hp
    have hpt := survivingCounts_subset_threshold k (some t) batches p hps
    exact (mem_thresholdFiltered_some.mp hpt).2
  · intro p hp hpt
    have hmem : p ∈ thresholdFiltered (some t) (swappedCounts batches) :=
      mem_thresholdFiltered_some.mpr ⟨hp, hpt⟩
    have hne : survivingCounts none (some t) batches ≠ [] :=
      List.ne_nil_of_mem hmem
    exact (vocabEntries_perm_surviving hne).mem_iff.mpr hmem

theorem claim_C4_witness :
    survivingCounts none (some 1) [["a"]] ≠ []
    ∧ (∀ p ∈ vocabEntries none (some 1) [["a"]], 1 ≤ p.1)
    ∧ (2, "a") ∈ vocabEntries none (some 1) [["a", "a"]] :=
  ⟨by decide,
   (claim_C4_threshold 1 none [["a"]]).1 (by decide),
   (claim_C4_threshold 1 none [["a", "a"]]).2 (2, "a") (by decide) (by decide)⟩

/-- C5: a counted element is discarded by the mandatory filter if and only
if it is empty or contains a line-feed or carriage-return character, and
consequently no emitted element other than the sentinel is empty or
contains a line-separator character. -/
theorem claim_C5_element_filter (e : String) (k t : Option Nat)
    (batches : List (List String)) :
    (elementOk e = false ↔ (e = "" ∨ '\n' ∈ e.data ∨ '\r' ∈ e.data))
    ∧ (∀ kv ∈ countTable batches,
        (kv ∉ filteredCountTable batches
          ↔ (kv.1 = "" ∨ '\n' ∈ kv.1.data ∨ '\r' ∈ kv.1.data)))
    ∧ (∀ p ∈ vocabEntries k t batches,
        p = (1, sentinelToken)
        ∨ ¬(p.2 = "" ∨ '\n' ∈ p.2.data ∨ '\r' ∈ p.2.data)) := by
  refine ⟨elementOk_false_iff e, ?_, ?_⟩
  · intro kv hkv
    have hmem : kv ∈ filteredCountTable batches ↔ elementOk kv.1 = true := by
      unfold filteredCountTable
      rw [List.mem_filter]
      exact ⟨fun h => h.2, fun h => ⟨hkv, h⟩⟩
    exact (not_congr hmem).trans ((not_congr (elementOk_iff kv.1)).trans not_not)
  · intro p hp
    rcases vocabEntries_mem_cases hp with h | h
    · exact Or.inl h
    · refine Or.inr ?_
      have hsw : p ∈ swappedCounts batches :=
        thresholdFiltered_subset t _ p (survivingCounts_subset_threshold k t batches p h)
      exact (elementOk_iff p.2).mp (mem_swappedCounts_elementOk hsw)

theorem claim_C5_witness :
    ("a", 2) ∈ countTable [["a", "b"], ["a"]]
    ∧ ((("a", 2) ∉ filteredCountTable [["a", "b"], ["a"]])
        ↔ (("a" : String) = "" ∨ '\n' ∈ "a".data ∨ '\r' ∈ "a".data))
    ∧ ((2, "a") = ((1 : Nat), sentinelToken)
        ∨ ¬(("a" : String) = "" ∨ '\n' ∈ "a".data ∨ '\r' ∈ "a".data)) :=
  ⟨by decide,
   (claim_C5_element_filter "a" none none [["a", "b"], ["a"]]).2.1 ("a", 2) (by decide),
   (claim_C5_element_filter "a" none none [["a", "b"], ["a"]]).2.2 (2, "a") (by decide)⟩

/-- C6: whenever the table is empty after the element filter, the
frequency-threshold filter and top-k selection, exactly one sentinel entry
with count `1` is emitted, so the artifact always contains at least one
line and is never empty. -/
theorem claim_C6_sentinel (store_frequency : Bool) (k t : Option Nat)
    (batches : List (List String)) :
    (survivingCounts k t batches = [] →
      vocabEntries k t batches = [(1, sentinelToken)])
    ∧ vocabLines store_frequency k t batches ≠ []
    ∧ 1 ≤ (vocabLines store_frequency k t batches).length := by
  have hne : vocabLines store_frequency k t batches ≠ [] := by
    rw [vocabLines_eq_map_formatLine]
    intro h
    exact vocabEntries_ne_nil k t batches (List.map_eq_nil_iff.mp h)
  refine ⟨fun h => vocabEntries_of_surviving_nil h, hne, ?_⟩
  have := List.length_pos.mpr hne
  omega

theorem claim_C6_witness :
    survivingCounts none (some 5) [["a"]] = []
    ∧ vocabEntries none (some 5) [["a"]] = [(1, sentinelToken)] :=
  ⟨by decide, (claim_C6_sentinel false none (some 5) [["a"]]).1 (by decide)⟩

/-- C7 counterexample: a combiner spec that is not a quantiles spec (so it
does not opt in to a default value) receives zero batches, and the engine
silently produces an empty output — no element and no error — rather than
failing, so the claim's `EmptyInputError` behaviour is absent from the
code. -/
theorem claim_C7_counterexample :
    natSumCombinerSpec.isQuantilesSpec = false
    ∧ combinerAnalyzerExpand natSumCombinerSpec ([] : List Nat) = [] :=
  ⟨rfl, rfl⟩

/-- C7 (amended): on zero batches the engine produces the default output
`extract_output(create_accumulator())` exactly when the spec is a quantiles
spec (the only opt-in); for every other spec it emits nothing at all (an
empty output, with no error raised); on nonempty input it emits the single
combined value. -/
theorem claim_C7_empty_input {A B C : Type} (spec : CombinerSpecModel A B C)
    (batches : List B) :
    (spec.isQuantilesSpec = false → combinerAnalyzerExpand spec [] = [])
    ∧ (spec.isQuantilesSpec = true →
        combinerAnalyzerExpand spec []
          = [spec.extract_output spec.create_accumulator])
    ∧ (batches ≠ [] →
        combinerAnalyzerExpand spec batches = [combineFnApply spec batches]) := by
  refine ⟨?_, ?_, ?_⟩
  · intro h
    simp [combinerAnalyzerExpand, h]
  · intro h
    simp [combinerAnalyzerExpand, h, combineFnApply]
  · intro h
    have hb : batches.isEmpty = false := by
      cases batches with
      | nil => exact absurd rfl h
      | cons x xs => rfl
    simp [combinerAnalyzerExpand, hb]

theorem claim_C7_witness :
    natSumCombinerSpec.isQuantilesSpec = false
    ∧ ([3, 4] : List Nat) ≠ []
    ∧ combinerAnalyzerExpand natSumCombinerSpec [3, 4]
        = [combineFnApply natSumCombinerSpec [3, 4]] :=
  ⟨rfl, by decide,
   (claim_C7_empty_input natSumCombinerSpec [3, 4]).2.2 (by decide)⟩

/-- C8: the dispatcher routes a uniques spec to the Vocabulary Builder and
a combiner spec to the Combine Engine, and it fails (raising
`NotImplementedError`, the realization of `UnsupportedAnalyzerKind`)
exactly when the spec is of neither known class; it has no other effect. -/
theorem claim_C8_dispatch {A C : Type} (spec : AnalyzerSpecModel A C)
    (batches : List (List String)) :
    (∀ u, spec = .uniquesSpec u →
      analyzerImplExpand spec batches
        = .ok (.vocabulary
            (vocabLines u.store_frequency u.top_k u.frequency_threshold batches)))
    ∧ (∀ c, spec = .combinerSpec c →
        analyzerImplExpand spec batches
          = .ok (.combined (combinerAnalyzerExpand c batches)))
    ∧ ((∃ msg, analyzerImplExpand spec batches = .error msg)
        ↔ ∃ n, spec = .unknownSpec n) := by
  refine ⟨?_, ?_, ?_⟩
  · rintro u rfl
    rfl
  · rintro c rfl
    rfl
  · cases spec with
    | uniquesSpec u =>
      exact ⟨fun ⟨msg, h⟩ => by simp [analyzerImplExpand] at h,
        fun ⟨n, h⟩ => by simp at h⟩
    | combinerSpec c =>
      exact ⟨fun ⟨msg, h⟩ => by simp [analyzerImplExpand] at h,
        fun ⟨n, h⟩ => by simp at h⟩
    | unknownSpec n =>
      exact ⟨fun _ => ⟨n, rfl⟩, fun _ => ⟨"NotImplementedError: " ++ n, rfl⟩⟩

theorem claim_C8_witness :
    analyzerImplExpand (.uniquesSpec ⟨none, none, false, "vocab"⟩
        : AnalyzerSpecModel Nat Nat) []
      = .ok (.vocabulary ["49d0cd50-04bb-48c0-bc6f-5b575dce351a"])
    ∧ (∃ msg, analyzerImplExpand (.unknownSpec "FooSpec"
        : AnalyzerSpecModel Nat Nat) [] = .error msg) := by
  constructor
  · have h := (claim_C8_dispatch (.uniquesSpec ⟨none, none, false, "vocab"⟩
        : AnalyzerSpecModel Nat Nat) []).1 ⟨none, none, false, "vocab"⟩ rfl
    rw [h]
    rw [show vocabLines false none none []
      = ["49d0cd50-04bb-48c0-bc6f-5b575dce351a"] from by decide]
  · exact (claim_C8_dispatch (.unknownSpec "FooSpec"
      : AnalyzerSpecModel Nat Nat) []).2.2.mpr ⟨"FooSpec", rfl⟩

/-- C9: the sentinel entry, when emitted, is exactly
`(1, "49d0cd50-04bb-48c0-bc6f-5b575dce351a")`; on an empty input the
artifact's single line is that string when `store_frequency` is unset and
`"1 49d0cd50-04bb-48c0-bc6f-5b575dce351a"` when it is set. -/
theorem claim_C9_sentinel_value (k t : Option Nat)
    (batches : List (List String)) :
    (survivingCounts k t batches = [] →
      vocabEntries k t batches
        = [(1, "49d0cd50-04bb-48c0-bc6f-5b575dce351a")])
    ∧ vocabLines false none none []
        = ["49d0cd50-04bb-48c0-bc6f-5b575dce351a"]
    ∧ vocabLines true none none []
        = ["1 49d0cd50-04bb-48c0-bc6f-5b575dce351a"] := by
  refine ⟨fun h => ?_, by decide, by decide⟩
  rw [vocabEntries_of_surviving_nil h]
  rfl

theorem claim_C9_witness :
    survivingCounts (some 3) none [] = []
    ∧ vocabEntries (some 3) none []
        = [(1, "49d0cd50-04bb-48c0-bc6f-5b575dce351a")] :=
  ⟨by decide, (claim_C9_sentinel_value (some 3) none []).1 (by decide)⟩

/-- C10: batch flattening assumes exactly one value array per batch — for a
single array it returns its elements flattened in row-major order, and for
zero or several arrays it fails (the tuple-unpacking `ValueError`,
modelled as `none`) rather than producing a result. -/
theorem claim_C10_flatten_single {α : Type} (batch_values : List (NDArray α))
    (v : NDArray α) (rows : List (List α)) :
    flatten_value_to_list [v] = some v.ravel
    ∧ (batch_values.length ≠ 1 → flatten_value_to_list batch_values = none)
    ∧ (NDArray.array (rows.map fun r => NDArray.array (r.map NDArray.scalar))).ravel
        = rows.flatten := by
  refine ⟨rfl, ?_, ravel_matrix rows⟩
  intro h
  match batch_values with
  | [] => rfl
  | [w] => exact absurd rfl h
  | a :: b :: rest => rfl

theorem claim_C10_witness :
    ([] : List (NDArray Nat)).length ≠ 1
    ∧ flatten_value_to_list ([] : List (NDArray Nat)) = none :=
  ⟨by decide,
   (claim_C10_flatten_single ([] : List (NDArray Nat)) (NDArray.scalar 0) []).2.1
     (by decide)⟩
